import Mathlib

/-!
Shallow embedding of the change-notification core of the iat-timetable
repository (src/telegram.py), together with theorems settling the frozen
claims about it.

Modelling conventions:
* Python dicts mapping slot numbers to lessons become association lists
  (`Day`); a `Timetable` is the list of day dictionaries.
* SQLite tables become lists of row structures (`LessonRow`, `ChatRow`);
  the SQL statements of `telegram_callback` become list operations that
  mirror the WHERE clauses and SET clauses literally.
* Timestamps are natural numbers; `CURRENT_TIMESTAMP` becomes the `now`
  field of a run configuration.
* The Telethon transport becomes a function classifying each send as
  succeeding, failing permanently (ChatIdInvalidError, PeerIdInvalidError,
  UserIsBlockedError, ValueError) or failing transiently (any other
  exception, which the Python code does not catch).
* `strftime` is locale and platform dependent, so the two formatters used
  by `compose_message` are abstract function parameters: `fx` models the
  locale date rendering `date.strftime("%x")`, `fA` models the lowered
  weekday name `date.strftime("%A").lower()`; both are applied to the date
  `week.monday + day_num` measured in days.
* A Python exception escaping `callback` is modelled by an explicit
  `Failure` outcome; the cursor state reached before the exception is kept,
  exactly as the uncommitted SQLite connection keeps it.
-/

namespace IatTimetable

/-- A lesson value as it appears inside a parsed `Timetable`: the surrogate
row id (`lesson[0]` in the source) and the `(classroom, name)` pair
(`this_lesson[1]` in the source). -/
structure Lesson where
  id : Int
  classroom : String
  name : String
deriving DecidableEq, Repr

/-- One day of a timetable: the dict from slot number to lesson. -/
abbrev Day := List (Nat × Lesson)

/-- A parsed timetable: the sequence of day dictionaries. -/
abbrev Timetable := List Day

/-- The `Week` value handed to the callback: stable id and Monday date
(days since an arbitrary epoch). -/
structure Week where
  week_id : String
  monday : Nat
deriving DecidableEq, Repr

/-- EMOJI_DIGITS from src/telegram.py line 18: the ten keycap digit
strings, digit followed by U+FE0F U+20E3. -/
def EMOJI_DIGITS : List String :=
  (List.range 10).map (fun num => toString num ++ "️⃣")

/-- Python dict lookup `timetable[day_num].get(lesson_num)` followed by the
`or (None, ("", "—"))` defaulting of line 38: a present lesson tuple is
always truthy, so the placeholder is used exactly when the slot is absent. -/
def lessonLookup (day : Day) (lesson_num : Nat) : String × String :=
  match day.lookup lesson_num with
  | some l => (l.classroom, l.name)
  | none => ("", "—")

/-- Python `max(timetable[day_num])`: the maximum key of the day dict,
raising (here: `none`) on an empty dict. -/
def dayMaxSlot (day : Day) : Option Nat :=
  (day.map Prod.fst).max?

/-- The header line of line 36 of the source. -/
def header (fx fA : Nat → String) (week : Week) (day_num : Nat) : String :=
  "Новое расписание на <b>" ++ fx (week.monday + day_num) ++ " ("
    ++ fA (week.monday + day_num) ++ "):</b>\n"

/-- The loop body of lines 37-42 of the source, iterated over the given
slot numbers: append one line per slot, reading the visual marker from
`EMOJI_DIGITS` at index `lesson_num + 1` and failing (IndexError) when that
index is out of range. -/
def buildLines (day : Day) : List Nat → String → Option String
  | [], acc => some acc
  | n :: rest, acc =>
    match EMOJI_DIGITS[n + 1]? with
    | none => none
    | some marker =>
      let cn := lessonLookup day n
      let line := "\n" ++ marker ++ " " ++ cn.2 ++
        (if cn.1 = "" then "" else " — <i>" ++ cn.1 ++ "</i>")
      buildLines day rest (acc ++ line)

/-- compose_message from src/telegram.py lines 23-43. Returns `none` where
the Python function raises: day index out of range, empty day dict (the
`max` call), or a slot marker index beyond the ten EMOJI_DIGITS entries. -/
def compose_message (fx fA : Nat → String) (timetable : Timetable)
    (week : Week) (day_num : Nat) : Option String :=
  match timetable[day_num]? with
  | none => none
  | some day =>
    match dayMaxSlot day with
    | none => none
    | some m => buildLines day (List.range (m + 1)) (header fx fA week day_num)

/-- One line of the composed message for a slot, as the claims describe it:
marker, name (placeholder "—" for a missing slot), classroom appended in
italics exactly when non-empty. -/
def specLine (day : Day) (n : Nat) : String :=
  "\n" ++ (EMOJI_DIGITS[n + 1]?).getD "" ++ " " ++ (lessonLookup day n).2 ++
    (if (lessonLookup day n).1 = "" then "" else " — <i>" ++ (lessonLookup day n).1 ++ "</i>")

/-- Concatenation of the per-slot lines for the given slot numbers. -/
def catLines (day : Day) : List Nat → String
  | [] => ""
  | n :: rest => specLine day n ++ catLines day rest

/-- One row of the `lesson` table (columns listed in the persisted layout
of the repository). -/
structure LessonRow where
  id : Int
  group_id : String
  week_id : String
  day_num : Nat
  lesson_num : Nat
  classroom : String
  name : String
  created_at : Nat
  last_updated : Nat
  last_checked : Nat
  obsolete_since : Option Nat
deriving DecidableEq, Repr

/-- One row of the `telegram_chat` table. -/
structure ChatRow where
  id : Int
  group_id : String
  subscribed : Bool
deriving DecidableEq, Repr

/-- The persisted state visible to the callback: both tables. -/
structure Store where
  lessons : List LessonRow
  chats : List ChatRow
deriving DecidableEq, Repr

/-- The WHERE clause of the change-selector query (src/telegram.py lines
83-95): group and week match, the row was updated after the last check,
and it is not obsolete. -/
def pendingLesson (group week_id : String) (r : LessonRow) : Bool :=
  decide (r.group_id = group ∧ r.week_id = week_id ∧
    r.last_checked < r.last_updated ∧ r.obsolete_since = none)

/-- The change-selector query: SELECT DISTINCT day_num FROM lesson WHERE
pending; the resulting Python set is modelled as the deduplicated list of
day numbers in row order. -/
def selectUpdatedDays (lessons : List LessonRow) (group week_id : String) : List Nat :=
  ((lessons.filter (pendingLesson group week_id)).map (fun r => r.day_num)).dedup

/-- The WHERE clause of the subscriber query (src/telegram.py lines
99-109): group matches and subscribed is true. -/
def activeChat (group : String) (row : ChatRow) : Bool :=
  decide (row.group_id = group ∧ row.subscribed = true)

/-- The subscriber query: SELECT id FROM telegram_chat WHERE group_id = ?
AND subscribed = TRUE, again as a deduplicated list of ids in row order. -/
def selectSubscribers (chats : List ChatRow) (group : String) : List Int :=
  ((chats.filter (activeChat group)).map (fun row => row.id)).dedup

/-- The unsubscribe statement (src/telegram.py lines 123-133): UPDATE
telegram_chat SET subscribed = FALSE WHERE id = chat_id. -/
def unsubscribe (chats : List ChatRow) (chat_id : Int) : List ChatRow :=
  chats.map (fun row => if row.id = chat_id then { row with subscribed := false } else row)

/-- The lesson ids collected on line 136 of the source: every day, every
slot of the processed timetable. -/
def timetableIds (timetable : Timetable) : List Int :=
  timetable.flatMap (fun day => day.map (fun p => p.2.id))

/-- The checkpoint statement executed per id by `executemany` (src lines
137-147): UPDATE lesson SET last_checked = CURRENT_TIMESTAMP WHERE id = ?. -/
def commitChecked (lessons : List LessonRow) (ids : List Int) (now : Nat) : List LessonRow :=
  ids.foldl
    (fun ls i => ls.map (fun r => if r.id = i then { r with last_checked := now } else r))
    lessons

/-- Classification of one `bot.send_message` call: success, one of the
four caught exceptions (permanent), or any other exception (transient,
uncaught in the source). -/
inductive SendResult
  | ok
  | permanentError
  | transientError
deriving DecidableEq, Repr

/-- The transport: the result of sending a given message to a given chat. -/
abbrev SendFn := Int → String → SendResult

/-- An exception escaping the callback: either an uncaught transport error
or an error raised by `compose_message`. -/
inductive Failure
  | transport
  | compose
deriving DecidableEq, Repr

/-- Observable effects of one callback run, in execution order. -/
inductive Event
  | send (chat_id : Int) (message : String)
  | unsub (chat_id : Int)
  | checkpoint (id : Int)
deriving DecidableEq, Repr

/-- True exactly on send-attempt events. -/
def Event.isSend : Event → Bool
  | .send _ _ => true
  | _ => false

/-- True exactly on checkpoint-write events. -/
def Event.isCheckpoint : Event → Bool
  | .checkpoint _ => true
  | _ => false

/-- The inner loop of src/telegram.py lines 117-133: send the day's message
to each subscriber of the snapshot in turn; a caught (permanent) error
unsubscribes the chat and continues, an uncaught (transient) error aborts
immediately, returning the chats mutated so far, the trace so far, and the
abort flag. -/
def sendDay (send : SendFn) (message : String) :
    List Int → List ChatRow → List ChatRow × List Event × Bool
  | [], chats => (chats, [], false)
  | c :: rest, chats =>
    match send c message with
    | .ok =>
      let r := sendDay send message rest chats
      (r.1, Event.send c message :: r.2.1, r.2.2)
    | .permanentError =>
      let r := sendDay send message rest (unsubscribe chats c)
      (r.1, Event.send c message :: Event.unsub c :: r.2.1, r.2.2)
    | .transientError => (chats, [Event.send c message], true)

/-- The outer loop of src/telegram.py lines 115-133: for each updated day,
compose the message (an exception there aborts), then fan out to the
subscriber snapshot; a transient transport abort stops the whole loop. -/
def notifyDays (send : SendFn) (fx fA : Nat → String) (timetable : Timetable)
    (week : Week) (subs : List Int) :
    List Nat → List ChatRow → List ChatRow × List Event × Option Failure
  | [], chats => (chats, [], none)
  | d :: rest, chats =>
    match compose_message fx fA timetable week d with
    | none => (chats, [], some .compose)
    | some message =>
      match sendDay send message subs chats with
      | (chats1, tr, true) => (chats1, tr, some .transport)
      | (chats1, tr, false) =>
        let r := notifyDays send fx fA timetable week subs rest chats1
        (r.1, tr ++ r.2.1, r.2.2)

/-- Everything one invocation of the callback depends on besides the
store: the transport, the two locale formatters, the clock, and the
arguments `(timetable, group, week)`. -/
structure RunConfig where
  send : SendFn
  fx : Nat → String
  fA : Nat → String
  now : Nat
  timetable : Timetable
  group : String
  week : Week

/-- The callback of telegram_callback (src/telegram.py lines 57-147):
select updated days, snapshot the subscribers, fan out, and - only when no
exception escaped the loops - advance every timetable lesson's checkpoint.
Returns the final store, the event trace, and the escaping failure (if
any). -/
def runCallback (cfg : RunConfig) (store : Store) : Store × List Event × Option Failure :=
  let days := selectUpdatedDays store.lessons cfg.group cfg.week.week_id
  let subs := selectSubscribers store.chats cfg.group
  match notifyDays cfg.send cfg.fx cfg.fA cfg.timetable cfg.week subs days store.chats with
  | (chats1, tr, some f) => ({ lessons := store.lessons, chats := chats1 }, tr, some f)
  | (chats1, tr, none) =>
    let ids := timetableIds cfg.timetable
    ({ lessons := commitChecked store.lessons ids cfg.now, chats := chats1 },
      tr ++ ids.map Event.checkpoint, none)

/-- A sequence of callback runs, each acting on the store the previous one
left behind. -/
def runSeq (cfgs : List RunConfig) (store : Store) : Store :=
  cfgs.foldl (fun s cfg => (runCallback cfg s).1) store

/-- What one checkpoint pass does to a single row: stamp `now` when the
row's id occurs among the updated ids, leave it alone otherwise. -/
def checkRow (ids : List Int) (now : Nat) (r : LessonRow) : LessonRow :=
  if r.id ∈ ids then { r with last_checked := now } else r

theorem commitChecked_cons (lessons : List LessonRow) (i : Int) (ids : List Int) (now : Nat) :
    commitChecked lessons (i :: ids) now =
      commitChecked (lessons.map fun r => if r.id = i then { r with last_checked := now } else r)
        ids now := rfl

theorem commitChecked_eq_map (ids : List Int) (now : Nat) :
    ∀ lessons : List LessonRow, commitChecked lessons ids now = lessons.map (checkRow ids now) := by
  induction ids with
  | nil =>
    intro lessons
    have h : lessons.map (checkRow [] now) = lessons.map id :=
      List.map_congr_left (fun r _ => by simp [checkRow])
    simp [commitChecked, h]
  | cons i ids ih =>
    intro lessons
    rw [commitChecked_cons, ih, List.map_map]
    apply List.map_congr_left
    intro r _
    by_cases h : r.id = i
    · by_cases h2 : r.id ∈ ids <;>
        simp [checkRow, Function.comp, h, h2]
    · by_cases h2 : r.id ∈ ids <;>
        simp [checkRow, Function.comp, h, h2]

theorem runCallback_fail (cfg : RunConfig) (store : Store) (chats1 : List ChatRow)
    (tr : List Event) (f : Failure)
    (h : notifyDays cfg.send cfg.fx cfg.fA cfg.timetable cfg.week
        (selectSubscribers store.chats cfg.group)
        (selectUpdatedDays store.lessons cfg.group cfg.week.week_id) store.chats
      = (chats1, tr, some f)) :
    runCallback cfg store = ({ lessons := store.lessons, chats := chats1 }, tr, some f) := by
  unfold runCallback
  simp only [h]

theorem runCallback_ok (cfg : RunConfig) (store : Store) (chats1 : List ChatRow)
    (tr : List Event)
    (h : notifyDays cfg.send cfg.fx cfg.fA cfg.timetable cfg.week
        (selectSubscribers store.chats cfg.group)
        (selectUpdatedDays store.lessons cfg.group cfg.week.week_id) store.chats
      = (chats1, tr, none)) :
    runCallback cfg store =
      ({ lessons := commitChecked store.lessons (timetableIds cfg.timetable) cfg.now,
         chats := chats1 },
       tr ++ (timetableIds cfg.timetable).map Event.checkpoint, none) := by
  unfold runCallback
  simp only [h]

theorem sendDay_not_abort (send : SendFn) (m : String)
    (hnt : ∀ c, send c m ≠ .transientError) :
    ∀ subs chats, (sendDay send m subs chats).2.2 = false := by
  intro subs
  induction subs with
  | nil => intro chats; rfl
  | cons c rest ih =>
    intro chats
    cases h : send c m with
    | ok => simp [sendDay, h, ih]
    | permanentError => simp [sendDay, h, ih]
    | transientError => exact absurd h (hnt c)

theorem sendDay_trace_no_checkpoint (send : SendFn) (m : String) :
    ∀ subs chats e, e ∈ (sendDay send m subs chats).2.1 → e.isCheckpoint = false := by
  intro subs
  induction subs with
  | nil => intro chats e he; simp [sendDay] at he
  | cons c rest ih =>
    intro chats e he
    cases h : send c m with
    | ok =>
      simp [sendDay, h] at he
      rcases he with rfl | he
      · rfl
      · exact ih chats e he
    | permanentError =>
      simp [sendDay, h] at he
      rcases he with rfl | rfl | he
      · rfl
      · rfl
      · exact ih (unsubscribe chats c) e he
    | transientError =>
      simp [sendDay, h] at he
      subst he
      rfl

theorem sendDay_sends_all (send : SendFn) (m : String)
    (hnt : ∀ c, send c m ≠ .transientError) :
    ∀ subs chats c, c ∈ subs → Event.send c m ∈ (sendDay send m subs chats).2.1 := by
  intro subs
  induction subs with
  | nil => intro chats c hc; simp at hc
  | cons c0 rest ih =>
    intro chats c hc
    rcases List.mem_cons.mp hc with rfl | hc
    · cases h : send c m with
      | ok =>
        simp only [sendDay, h]
        exact List.mem_cons_self _ _
      | permanentError =>
        simp only [sendDay, h]
        exact List.mem_cons_self _ _
      | transientError => exact absurd h (hnt c)
    · cases h : send c0 m with
      | ok =>
        simp only [sendDay, h]
        exact List.mem_cons_of_mem _ (ih chats c hc)
      | permanentError =>
        simp only [sendDay, h]
        exact List.mem_cons_of_mem _ (List.mem_cons_of_mem _ (ih (unsubscribe chats c0) c hc))
      | transientError => exact absurd h (hnt c0)

/-- Every registry row carrying this chat id has its subscribed flag
cleared. -/
def unsubscribedIn (chats : List ChatRow) (c : Int) : Prop :=
  ∀ row ∈ chats, row.id = c → row.subscribed = false

theorem unsubscribe_unsubscribedIn (chats : List ChatRow) (c : Int) :
    unsubscribedIn (unsubscribe chats c) c := by
  intro row hrow hid
  rcases List.mem_map.mp hrow with ⟨row0, _, hrow0⟩
  by_cases h : row0.id = c
  · simp [h] at hrow0
    rw [← hrow0]
  · simp [h] at hrow0
    rw [← hrow0] at hid
    exact absurd hid h

theorem unsubscribedIn_unsubscribe (chats : List ChatRow) (c c0 : Int)
    (h : unsubscribedIn chats c) : unsubscribedIn (unsubscribe chats c0) c := by
  intro row hrow hid
  rcases List.mem_map.mp hrow with ⟨row0, hm0, hrow0⟩
  by_cases hc : row0.id = c0
  · simp [hc] at hrow0
    rw [← hrow0]
  · simp [hc] at hrow0
    rw [← hrow0] at hid ⊢
    exact h row0 hm0 hid

theorem sendDay_unsubscribedIn (send : SendFn) (m : String) (c : Int) :
    ∀ subs chats, unsubscribedIn chats c →
      unsubscribedIn (sendDay send m subs chats).1 c := by
  intro subs
  induction subs with
  | nil => intro chats h; exact h
  | cons c0 rest ih =>
    intro chats h
    cases hs : send c0 m with
    | ok =>
      simp only [sendDay, hs]
      exact ih chats h
    | permanentError =>
      simp only [sendDay, hs]
      exact ih (unsubscribe chats c0) (unsubscribedIn_unsubscribe chats c c0 h)
    | transientError =>
      simp only [sendDay, hs]
      exact h

theorem sendDay_unsubscribes (send : SendFn) (m : String)
    (hnt : ∀ c, send c m ≠ .transientError) :
    ∀ subs chats c, c ∈ subs → send c m = .permanentError →
      unsubscribedIn (sendDay send m subs chats).1 c := by
  intro subs
  induction subs with
  | nil => intro chats c hc; simp at hc
  | cons c0 rest ih =>
    intro chats c hc hperm
    rcases List.mem_cons.mp hc with rfl | hc
    · simp only [sendDay, hperm]
      exact sendDay_unsubscribedIn send m c rest (unsubscribe chats c)
        (unsubscribe_unsubscribedIn chats c)
    · cases hs : send c0 m with
      | ok =>
        simp only [sendDay, hs]
        exact ih chats c hc hperm
      | permanentError =>
        simp only [sendDay, hs]
        exact ih (unsubscribe chats c0) c hc hperm
      | transientError => exact absurd hs (hnt c0)

theorem sendDay_chats_eq_of_no_perm (send : SendFn) (m : String)
    (hnp : ∀ c, send c m ≠ .permanentError) :
    ∀ subs chats, (sendDay send m subs chats).1 = chats := by
  intro subs
  induction subs with
  | nil => intro chats; rfl
  | cons c0 rest ih =>
    intro chats
    cases hs : send c0 m with
    | ok => simp only [sendDay, hs]; exact ih chats
    | permanentError => exact absurd hs (hnp c0)
    | transientError => simp only [sendDay, hs]

theorem sendDay_abort_form (send : SendFn) (m : String) :
    ∀ subs chats, (sendDay send m subs chats).2.2 = true →
      ∃ pre c, (sendDay send m subs chats).2.1 = pre ++ [Event.send c m] ∧
        send c m = .transientError := by
  intro subs
  induction subs with
  | nil => intro chats h; simp [sendDay] at h
  | cons c0 rest ih =>
    intro chats h
    cases hs : send c0 m with
    | ok =>
      simp only [sendDay, hs] at h ⊢
      rcases ih chats h with ⟨pre, c, htr, hc⟩
      exact ⟨Event.send c0 m :: pre, c, by rw [htr]; rfl, hc⟩
    | permanentError =>
      simp only [sendDay, hs] at h ⊢
      rcases ih (unsubscribe chats c0) h with ⟨pre, c, htr, hc⟩
      exact ⟨Event.send c0 m :: Event.unsub c0 :: pre, c, by rw [htr]; rfl, hc⟩
    | transientError =>
      simp only [sendDay, hs]
      exact ⟨[], c0, rfl, hs⟩

theorem notifyDays_not_fail (send : SendFn) (fx fA : Nat → String) (timetable : Timetable)
    (week : Week) (subs : List Int) (hnt : ∀ c m, send c m ≠ .transientError) :
    ∀ days chats, (∀ d ∈ days, (compose_message fx fA timetable week d).isSome) →
      (notifyDays send fx fA timetable week subs days chats).2.2 = none := by
  intro days
  induction days with
  | nil => intro chats _; rfl
  | cons d rest ih =>
    intro chats hcomp
    have hd : (compose_message fx fA timetable week d).isSome :=
      hcomp d (List.mem_cons_self d rest)
    rcases hm : compose_message fx fA timetable week d with _ | m
    · rw [hm] at hd; simp at hd
    · rcases hsd : sendDay send m subs chats with ⟨chats1, tr, ab⟩
      have hab : ab = false := by
        have h0 := sendDay_not_abort send m (fun c => hnt c m) subs chats
        rw [hsd] at h0; exact h0
      subst hab
      simp only [notifyDays, hm, hsd]
      exact ih chats1 (fun d2 hd2 => hcomp d2 (List.mem_cons_of_mem _ hd2))

theorem notifyDays_no_checkpoint (send : SendFn) (fx fA : Nat → String) (timetable : Timetable)
    (week : Week) (subs : List Int) :
    ∀ days chats e, e ∈ (notifyDays send fx fA timetable week subs days chats).2.1 →
      e.isCheckpoint = false := by
  intro days
  induction days with
  | nil => intro chats e he; simp [notifyDays] at he
  | cons d rest ih =>
    intro chats e he
    rcases hm : compose_message fx fA timetable week d with _ | m
    · simp only [notifyDays, hm] at he
      simp at he
    · rcases hsd : sendDay send m subs chats with ⟨chats1, tr, ab⟩
      cases ab
      · simp only [notifyDays, hm, hsd] at he
        rcases List.mem_append.mp he with h1 | h2
        · exact sendDay_trace_no_checkpoint send m subs chats e (by rw [hsd]; exact h1)
        · exact ih chats1 e h2
      · simp only [notifyDays, hm, hsd] at he
        exact sendDay_trace_no_checkpoint send m subs chats e (by rw [hsd]; exact he)

theorem notifyDays_sends (send : SendFn) (fx fA : Nat → String) (timetable : Timetable)
    (week : Week) (subs : List Int) (hnt : ∀ c m, send c m ≠ .transientError) :
    ∀ days chats d c m, d ∈ days → c ∈ subs →
      compose_message fx fA timetable week d = some m →
      (∀ d2 ∈ days, (compose_message fx fA timetable week d2).isSome) →
      Event.send c m ∈ (notifyDays send fx fA timetable week subs days chats).2.1 := by
  intro days
  induction days with
  | nil => intro chats d c m hd; simp at hd
  | cons d0 rest ih =>
    intro chats d c m hd hc hm hcomp
    rcases List.mem_cons.mp hd with rfl | hd
    · rcases hsd : sendDay send m subs chats with ⟨chats1, tr, ab⟩
      have hab : ab = false := by
        have h0 := sendDay_not_abort send m (fun c2 => hnt c2 m) subs chats
        rw [hsd] at h0; exact h0
      subst hab
      simp only [notifyDays, hm, hsd]
      apply List.mem_append_left
      have h1 := sendDay_sends_all send m (fun c2 => hnt c2 m) subs chats c hc
      rw [hsd] at h1; exact h1
    · rcases hm0 : compose_message fx fA timetable week d0 with _ | m0
      · exfalso
        have h0 := hcomp d0 (List.mem_cons_self _ _)
        rw [hm0] at h0; simp at h0
      · rcases hsd : sendDay send m0 subs chats with ⟨chats1, tr, ab⟩
        have hab : ab = false := by
          have h0 := sendDay_not_abort send m0 (fun c2 => hnt c2 m0) subs chats
          rw [hsd] at h0; exact h0
        subst hab
        simp only [notifyDays, hm0, hsd]
        apply List.mem_append_right
        exact ih chats1 d c m hd hc hm (fun d2 h2 => hcomp d2 (List.mem_cons_of_mem _ h2))

theorem notifyDays_unsubscribedIn (send : SendFn) (fx fA : Nat → String) (timetable : Timetable)
    (week : Week) (subs : List Int) (c : Int) :
    ∀ days chats, unsubscribedIn chats c →
      unsubscribedIn (notifyDays send fx fA timetable week subs days chats).1 c := by
  intro days
  induction days with
  | nil => intro chats h; exact h
  | cons d0 rest ih =>
    intro chats h
    rcases hm0 : compose_message fx fA timetable week d0 with _ | m0
    · simp only [notifyDays, hm0]; exact h
    · rcases hsd : sendDay send m0 subs chats with ⟨chats1, tr, ab⟩
      have h1 : unsubscribedIn chats1 c := by
        have h0 := sendDay_unsubscribedIn send m0 c subs chats h
        rw [hsd] at h0; exact h0
      cases ab
      · simp only [notifyDays, hm0, hsd]
        exact ih chats1 h1
      · simp only [notifyDays, hm0, hsd]
        exact h1

theorem notifyDays_unsubscribes (send : SendFn) (fx fA : Nat → String) (timetable : Timetable)
    (week : Week) (subs : List Int) (hnt : ∀ c m, send c m ≠ .transientError) :
    ∀ days chats d c m, d ∈ days → c ∈ subs →
      compose_message fx fA timetable week d = some m →
      send c m = .permanentError →
      (∀ d2 ∈ days, (compose_message fx fA timetable week d2).isSome) →
      unsubscribedIn (notifyDays send fx fA timetable week subs days chats).1 c := by
  intro days
  induction days with
  | nil => intro chats d c m hd; simp at hd
  | cons d0 rest ih =>
    intro chats d c m hd hc hm hperm hcomp
    rcases List.mem_cons.mp hd with rfl | hd
    · rcases hsd : sendDay send m subs chats with ⟨chats1, tr, ab⟩
      have hab : ab = false := by
        have h0 := sendDay_not_abort send m (fun c2 => hnt c2 m) subs chats
        rw [hsd] at h0; exact h0
      subst hab
      simp only [notifyDays, hm, hsd]
      apply notifyDays_unsubscribedIn
      have h1 := sendDay_unsubscribes send m (fun c2 => hnt c2 m) subs chats c hc hperm
      rw [hsd] at h1; exact h1
    · rcases hm0 : compose_message fx fA timetable week d0 with _ | m0
      · exfalso
        have h0 := hcomp d0 (List.mem_cons_self _ _)
        rw [hm0] at h0; simp at h0
      · rcases hsd : sendDay send m0 subs chats with ⟨chats1, tr, ab⟩
        have hab : ab = false := by
          have h0 := sendDay_not_abort send m0 (fun c2 => hnt c2 m0) subs chats
          rw [hsd] at h0; exact h0
        subst hab
        simp only [notifyDays, hm0, hsd]
        exact ih chats1 d c m hd hc hm hperm (fun d2 h2 => hcomp d2 (List.mem_cons_of_mem _ h2))

theorem notifyDays_chats_eq_of_no_perm (send : SendFn) (fx fA : Nat → String)
    (timetable : Timetable) (week : Week) (subs : List Int)
    (hnp : ∀ c m, send c m ≠ .permanentError) :
    ∀ days chats, (notifyDays send fx fA timetable week subs days chats).1 = chats := by
  intro days
  induction days with
  | nil => intro chats; rfl
  | cons d0 rest ih =>
    intro chats
    rcases hm0 : compose_message fx fA timetable week d0 with _ | m0
    · simp only [notifyDays, hm0]
    · rcases hsd : sendDay send m0 subs chats with ⟨chats1, tr, ab⟩
      have hch : chats1 = chats := by
        have h0 := sendDay_chats_eq_of_no_perm send m0 (fun c2 => hnp c2 m0) subs chats
        rw [hsd] at h0; exact h0
      cases ab
      · simp only [notifyDays, hm0, hsd]
        rw [ih chats1, hch]
      · simp only [notifyDays, hm0, hsd]
        exact hch

theorem notifyDays_transport_form (send : SendFn) (fx fA : Nat → String)
    (timetable : Timetable) (week : Week) (subs : List Int) :
    ∀ days chats, (notifyDays send fx fA timetable week subs days chats).2.2 = some .transport →
      ∃ pre c m, (notifyDays send fx fA timetable week subs days chats).2.1
          = pre ++ [Event.send c m] ∧ send c m = .transientError := by
  intro days
  induction days with
  | nil => intro chats h; simp [notifyDays] at h
  | cons d0 rest ih =>
    intro chats h
    rcases hm0 : compose_message fx fA timetable week d0 with _ | m0
    · simp only [notifyDays, hm0] at h
      simp at h
    · rcases hsd : sendDay send m0 subs chats with ⟨chats1, tr, ab⟩
      cases ab
      · simp only [notifyDays, hm0, hsd] at h ⊢
        rcases ih chats1 h with ⟨pre, c, m, htr, hc⟩
        exact ⟨tr ++ pre, c, m, by rw [htr, List.append_assoc], hc⟩
      · simp only [notifyDays, hm0, hsd]
        have h1 : (sendDay send m0 subs chats).2.2 = true := by rw [hsd]
        rcases sendDay_abort_form send m0 subs chats h1 with ⟨pre, c, htr, hc⟩
        rw [hsd] at htr
        exact ⟨pre, c, m0, htr, hc⟩

theorem checkRow_last_updated (ids : List Int) (now : Nat) (r : LessonRow) :
    (checkRow ids now r).last_updated = r.last_updated := by
  unfold checkRow
  split <;> rfl

theorem checkRow_keeps_inv (ids : List Int) (now : Nat) (r : LessonRow)
    (h : r.last_updated ≤ r.last_checked) (h2 : r.last_updated ≤ now) :
    (checkRow ids now r).last_updated ≤ (checkRow ids now r).last_checked := by
  unfold checkRow
  split
  · exact h2
  · exact h

theorem runCallback_lessons_cases (cfg : RunConfig) (store : Store) :
    (runCallback cfg store).1.lessons = store.lessons ∨
    (runCallback cfg store).1.lessons =
      store.lessons.map (checkRow (timetableIds cfg.timetable) cfg.now) := by
  rcases hN : notifyDays cfg.send cfg.fx cfg.fA cfg.timetable cfg.week
      (selectSubscribers store.chats cfg.group)
      (selectUpdatedDays store.lessons cfg.group cfg.week.week_id) store.chats
    with ⟨chats1, tr, out⟩
  cases out with
  | none =>
    right
    rw [runCallback_ok cfg store chats1 tr hN]
    exact commitChecked_eq_map (timetableIds cfg.timetable) cfg.now store.lessons
  | some f =>
    left
    rw [runCallback_fail cfg store chats1 tr f hN]

theorem runSeq_cons (cfg : RunConfig) (cfgs : List RunConfig) (store : Store) :
    runSeq (cfg :: cfgs) store = runSeq cfgs (runCallback cfg store).1 := rfl

theorem runSeq_row (cfgs : List RunConfig) :
    ∀ store : Store, ∀ i : Nat, ∀ r : LessonRow,
      (∀ cfg ∈ cfgs, ∀ s ∈ store.lessons, s.last_updated ≤ cfg.now) →
      store.lessons[i]? = some r →
      ∃ r', (runSeq cfgs store).lessons[i]? = some r' ∧
        r'.last_updated = r.last_updated ∧
        (r.last_updated ≤ r.last_checked → r'.last_updated ≤ r'.last_checked) := by
  induction cfgs with
  | nil =>
    intro store i r _ hget
    exact ⟨r, hget, rfl, fun h => h⟩
  | cons cfg cfgs ih =>
    intro store i r hnow hget
    rw [runSeq_cons]
    rcases runCallback_lessons_cases cfg store with hsame | hmap
    · have hget1 : (runCallback cfg store).1.lessons[i]? = some r := by rw [hsame]; exact hget
      have hnow1 : ∀ cfg2 ∈ cfgs, ∀ s ∈ (runCallback cfg store).1.lessons,
          s.last_updated ≤ cfg2.now := by
        intro cfg2 h2 s hs
        rw [hsame] at hs
        exact hnow cfg2 (List.mem_cons_of_mem _ h2) s hs
      exact ih (runCallback cfg store).1 i r hnow1 hget1
    · set f := checkRow (timetableIds cfg.timetable) cfg.now with hf
      have hget1 : (runCallback cfg store).1.lessons[i]? = some (f r) := by
        rw [hmap, List.getElem?_map, hget]
        rfl
      have hnow1 : ∀ cfg2 ∈ cfgs, ∀ s ∈ (runCallback cfg store).1.lessons,
          s.last_updated ≤ cfg2.now := by
        intro cfg2 h2 s hs
        rw [hmap] at hs
        rcases List.mem_map.mp hs with ⟨s0, hs0, rfl⟩
        rw [hf, checkRow_last_updated]
        exact hnow cfg2 (List.mem_cons_of_mem _ h2) s0 hs0
      rcases ih (runCallback cfg store).1 i (f r) hnow1 hget1 with ⟨r', hget2, hu, hinv⟩
      refine ⟨r', hget2, ?_, ?_⟩
      · rw [hu, hf, checkRow_last_updated]
      · intro h
        apply hinv
        apply checkRow_keeps_inv _ _ _ h
        exact hnow cfg (List.mem_cons_self _ _) r (List.getElem?_mem hget)

theorem EMOJI_DIGITS_length : EMOJI_DIGITS.length = 10 := by
  simp [EMOJI_DIGITS]

theorem buildLines_all_small (day : Day) :
    ∀ nums : List Nat, ∀ acc : String, (∀ n ∈ nums, n + 1 < 10) →
      buildLines day nums acc = some (acc ++ catLines day nums) := by
  intro nums
  induction nums with
  | nil =>
    intro acc _
    simp [buildLines, catLines]
  | cons n rest ih =>
    intro acc hsmall
    have hb : n + 1 < EMOJI_DIGITS.length := by
      rw [EMOJI_DIGITS_length]
      exact hsmall n (List.mem_cons_self _ _)
    have hget : EMOJI_DIGITS[n + 1]? = some (EMOJI_DIGITS.get ⟨n + 1, hb⟩) := by
      rw [List.getElem?_eq_getElem hb]
      rfl
    simp only [buildLines, hget]
    rw [ih _ (fun n2 h2 => hsmall n2 (List.mem_cons_of_mem _ h2))]
    simp only [catLines, specLine, hget, Option.getD_some]
    rw [String.append_assoc]

theorem buildLines_overflow (day : Day) :
    ∀ nums : List Nat, ∀ acc : String, (∃ n ∈ nums, 10 ≤ n + 1) →
      buildLines day nums acc = none := by
  intro nums
  induction nums with
  | nil =>
    intro acc h
    simp at h
  | cons n rest ih =>
    intro acc h
    by_cases hn : n + 1 < 10
    · have hb : n + 1 < EMOJI_DIGITS.length := by rw [EMOJI_DIGITS_length]; exact hn
      have hget : EMOJI_DIGITS[n + 1]? = some (EMOJI_DIGITS.get ⟨n + 1, hb⟩) := by
        rw [List.getElem?_eq_getElem hb]
        rfl
      simp only [buildLines, hget]
      apply ih
      rcases h with ⟨n2, h2, hge⟩
      rcases List.mem_cons.mp h2 with rfl | h2
      · omega
      · exact ⟨n2, h2, hge⟩
    · have hget : EMOJI_DIGITS[n + 1]? = none := by
        apply List.getElem?_eq_none
        rw [EMOJI_DIGITS_length]
        omega
      simp only [buildLines, hget]

theorem dayMaxSlot_eq_none_iff (day : Day) : dayMaxSlot day = none ↔ day = [] := by
  rw [dayMaxSlot, List.max?_eq_none_iff, List.map_eq_nil_iff]

/-- Claim C1: the change selector returns exactly the distinct day numbers
of the pending rows - rows of the given group and week whose last check
precedes their last update and that are not obsolete. In the embedding the
selector is a pure function of the lesson table, so it is deterministic
and performs no writes by construction; this theorem characterises the set
it returns. -/
theorem selectUpdatedDays_spec (lessons : List LessonRow) (group week_id : String) (d : Nat) :
    d ∈ selectUpdatedDays lessons group week_id ↔
      ∃ r ∈ lessons, r.group_id = group ∧ r.week_id = week_id ∧
        r.last_checked < r.last_updated ∧ r.obsolete_since = none ∧ r.day_num = d := by
  simp only [selectUpdatedDays, List.mem_dedup, List.mem_map, List.mem_filter,
    pendingLesson, decide_eq_true_eq]
  constructor
  · rintro ⟨r, ⟨hr, h1, h2, h3, h4⟩, h5⟩
    exact ⟨r, hr, h1, h2, h3, h4, h5⟩
  · rintro ⟨r, hr, h1, h2, h3, h4, h5⟩
    exact ⟨r, ⟨hr, h1, h2, h3, h4⟩, h5⟩

theorem mem_selectSubscribers (chats : List ChatRow) (group : String) (c : Int) :
    c ∈ selectSubscribers chats group ↔
      ∃ row ∈ chats, row.group_id = group ∧ row.subscribed = true ∧ row.id = c := by
  simp only [selectSubscribers, List.mem_dedup, List.mem_map, List.mem_filter,
    activeChat, decide_eq_true_eq]
  constructor
  · rintro ⟨row, ⟨hrow, h1, h2⟩, h3⟩
    exact ⟨row, hrow, h1, h2, h3⟩
  · rintro ⟨row, hrow, h1, h2, h3⟩
    exact ⟨row, ⟨hrow, h1, h2⟩, h3⟩

/-- Claim C7 (amended): for a valid day index whose slot dictionary is
non-empty (witnessed by its maximum slot index m) with m at most 8,
compose_message produces exactly the message made of the header - carrying
the formatted date of week.monday + day_num and the weekday name - followed
by one line per slot index from 0 to m inclusive (covering in particular
every index from 1 to m required by the claim; the code also emits the
slot-0 line), each line being a slot-number marker, the lesson name - the
placeholder name "—" with empty classroom for a missing slot - and the
classroom in italics appended exactly when the classroom string is
non-empty, as spelled out by specLine. -/
theorem compose_message_format (fx fA : Nat → String) (timetable : Timetable) (week : Week)
    (day_num : Nat) (day : Day) (m : Nat)
    (hday : timetable[day_num]? = some day)
    (hmax : dayMaxSlot day = some m) (hm : m ≤ 8) :
    compose_message fx fA timetable week day_num =
      some (header fx fA week day_num ++ catLines day (List.range (m + 1))) := by
  simp only [compose_message, hday, hmax]
  apply buildLines_all_small
  intro n hn
  rw [List.mem_range] at hn
  omega

/-- Claim C7 counterexample: a non-empty day dictionary (a single lesson in
slot 9) for which compose_message produces no message at all - the claim
as stated promises a message for every non-empty day. -/
theorem compose_message_nonempty_cex :
    ([((9 : Nat), Lesson.mk 1 "" "X")] : Day) ≠ [] ∧
    compose_message (fun _ => "") (fun _ => "") [[((9 : Nat), Lesson.mk 1 "" "X")]]
      (Week.mk "W" 0) 0 = none := by
  constructor
  · decide
  · rfl

def wfx : Nat → String := fun _ => "D"

def wfA : Nat → String := fun _ => "w"

def wwk : Week := ⟨"W1", 0⟩

def wday7 : Day := [(1, ⟨1, "101", "Math"⟩)]

def wtt7 : Timetable := [wday7]

/-- Witness for the amended claim C7 at a concrete one-lesson day. -/
theorem compose_message_format_witness :
    compose_message wfx wfA wtt7 wwk 0 =
      some (header wfx wfA wwk 0 ++ catLines wday7 (List.range 2)) :=
  compose_message_format wfx wfA wtt7 wwk 0 wday7 1 rfl rfl (by omega)

/-- Claim C9: for a valid day index, compose_message fails (the Python
function raises) exactly when the day's slot dictionary is empty - the max
of an empty collection - or its maximum slot index reaches 9, making the
emoji marker index max+1 fall outside the ten-entry EMOJI_DIGITS table;
it is total precisely on non-empty days with maximum slot at most 8. -/
theorem compose_message_domain (fx fA : Nat → String) (timetable : Timetable) (week : Week)
    (day_num : Nat) (day : Day) (hday : timetable[day_num]? = some day) :
    compose_message fx fA timetable week day_num = none ↔
      (day = [] ∨ ∃ m, dayMaxSlot day = some m ∧ 9 ≤ m) := by
  rcases hmax : dayMaxSlot day with _ | m
  · have hnil : day = [] := (dayMaxSlot_eq_none_iff day).mp hmax
    simp only [compose_message, hday, hmax]
    exact ⟨fun _ => Or.inl hnil, fun _ => trivial⟩
  · have hne : day ≠ [] := by
      intro h
      rw [(dayMaxSlot_eq_none_iff day).mpr h] at hmax
      exact Option.noConfusion hmax
    by_cases hm : m ≤ 8
    · constructor
      · intro h
        rw [show compose_message fx fA timetable week day_num
              = buildLines day (List.range (m + 1)) (header fx fA week day_num) by
            simp only [compose_message, hday, hmax]] at h
        rw [buildLines_all_small day _ _ (by intro n hn; rw [List.mem_range] at hn; omega)] at h
        exact Option.noConfusion h
      · rintro (h | ⟨m2, hm2, hge⟩)
        · exact absurd h hne
        · have := Option.some.inj hm2
          omega
    · constructor
      · intro _
        exact Or.inr ⟨m, rfl, by omega⟩
      · intro _
        simp only [compose_message, hday, hmax]
        apply buildLines_overflow
        exact ⟨9, List.mem_range.mpr (by omega), by omega⟩

def wday9 : Day := [(9, ⟨1, "", "X"⟩)]

def wtt9 : Timetable := [wday9]

/-- Witness for claim C9: a concrete slot-9 day makes compose_message
fail. -/
theorem compose_message_domain_witness :
    compose_message wfx wfA wtt9 wwk 0 = none :=
  (compose_message_domain wfx wfA wtt9 wwk 0 wday9 rfl).mpr
    (Or.inr ⟨9, rfl, by omega⟩)

/-- Claim C2: the callback never writes last_updated, and once a lesson
row satisfies last_checked >= last_updated, that keeps holding across any
sequence of callback runs (the clock hypothesis states that each run's
CURRENT_TIMESTAMP is at least every stored last_updated, i.e. the clock
does not run backwards); consequently such a row never satisfies the
change-selector predicate again, so its day is never selected into
updated_days twice for the same content change. Rows are tracked by their
position, which every run preserves. -/
theorem lesson_monotonic_notification (cfgs : List RunConfig) (store : Store) (i : Nat)
    (r r' : LessonRow) (g w : String)
    (hnow : ∀ cfg ∈ cfgs, ∀ s ∈ store.lessons, s.last_updated ≤ cfg.now)
    (h1 : store.lessons[i]? = some r)
    (h2 : (runSeq cfgs store).lessons[i]? = some r')
    (hinv : r.last_updated ≤ r.last_checked) :
    r'.last_updated = r.last_updated ∧ r'.last_updated ≤ r'.last_checked ∧
      pendingLesson g w r' = false := by
  rcases runSeq_row cfgs store i r hnow h1 with ⟨r2, hget, hu, hkeep⟩
  rw [h2] at hget
  have hr : r' = r2 := Option.some.inj hget
  subst hr
  have hinv2 : r'.last_updated ≤ r'.last_checked := hkeep hinv
  refine ⟨hu, hinv2, ?_⟩
  simp only [pendingLesson, decide_eq_false_iff_not]
  rintro ⟨-, -, hlt, -⟩
  omega

def w2cfg : RunConfig := ⟨fun _ _ => SendResult.ok, wfx, wfA, 5, [], "G1", wwk⟩

def w2row : LessonRow := ⟨1, "G1", "W1", 0, 1, "101", "Math", 0, 0, 1, none⟩

def w2store : Store := ⟨[w2row], []⟩

/-- Witness for claim C2 at a concrete one-row store and a single run. -/
theorem lesson_monotonic_notification_witness :
    w2row.last_updated = w2row.last_updated ∧
    w2row.last_updated ≤ w2row.last_checked ∧
    pendingLesson "G1" "W1" w2row = false := by
  apply lesson_monotonic_notification [w2cfg] w2store 0 w2row w2row "G1" "W1"
  · intro cfg hcfg s hs
    rw [List.mem_singleton] at hcfg
    subst hcfg
    have hs2 : s = w2row := by simpa [w2store] using hs
    subst hs2
    decide
  · rfl
  · rfl
  · decide

/-- Claim C3: on a run where no exception escapes, the checkpoint pass
stamps last_checked = now on every lesson row whose id occurs anywhere in
the processed timetable (all days, all slots - affected or not), and in
the event trace every send attempt strictly precedes every checkpoint
write. -/
theorem checkpoint_covers_timetable (cfg : RunConfig) (store : Store)
    (hok : (runCallback cfg store).2.2 = none) :
    (∀ r ∈ (runCallback cfg store).1.lessons,
        r.id ∈ timetableIds cfg.timetable → r.last_checked = cfg.now) ∧
    (∀ (i j : Nat) (e1 e2 : Event), (runCallback cfg store).2.1[i]? = some e1 →
      (runCallback cfg store).2.1[j]? = some e2 →
      e1.isSend = true → e2.isCheckpoint = true → i < j) := by
  rcases hN : notifyDays cfg.send cfg.fx cfg.fA cfg.timetable cfg.week
      (selectSubscribers store.chats cfg.group)
      (selectUpdatedDays store.lessons cfg.group cfg.week.week_id) store.chats
    with ⟨chats1, tr, out⟩
  cases out with
  | some f =>
    rw [runCallback_fail cfg store chats1 tr f hN] at hok
    exact Option.noConfusion hok
  | none =>
    have hrc := runCallback_ok cfg store chats1 tr hN
    rw [hrc]
    constructor
    · intro r hr hid
      rw [commitChecked_eq_map] at hr
      rcases List.mem_map.mp hr with ⟨r0, _, rfl⟩
      by_cases hmem : r0.id ∈ timetableIds cfg.timetable
      · simp [checkRow, hmem]
      · simp only [checkRow, if_neg hmem] at hid ⊢
        exact absurd hid hmem
    · intro i j e1 e2 h1 h2 hs hcp
      have hjL : tr.length ≤ j := by
        by_contra hlt
        push_neg at hlt
        rw [List.getElem?_append_left hlt] at h2
        have hm2 : e2 ∈ tr := List.getElem?_mem h2
        have := notifyDays_no_checkpoint cfg.send cfg.fx cfg.fA cfg.timetable cfg.week
          (selectSubscribers store.chats cfg.group)
          (selectUpdatedDays store.lessons cfg.group cfg.week.week_id) store.chats e2
          (by rw [hN]; exact hm2)
        rw [hcp] at this
        exact Bool.noConfusion this
      have hiL : i < tr.length := by
        by_contra hge
        push_neg at hge
        rw [List.getElem?_append_right hge] at h1
        have hm1 := List.getElem?_mem h1
        rcases List.mem_map.mp hm1 with ⟨id0, _, rfl⟩
        simp [Event.isSend] at hs
      omega

def w3row : LessonRow := ⟨1, "G1", "W1", 0, 1, "101", "Math", 0, 1, 0, none⟩

def w3store : Store := ⟨[w3row], [⟨111, "G1", true⟩]⟩

def w3tt : Timetable := [[(1, ⟨1, "101", "Math"⟩)]]

def w3cfg : RunConfig := ⟨fun _ _ => SendResult.ok, wfx, wfA, 5, w3tt, "G1", wwk⟩

def w3after : LessonRow := ⟨1, "G1", "W1", 0, 1, "101", "Math", 0, 1, 5, none⟩

/-- Witness for claim C3: a concrete successful run stamps the processed
lesson's checkpoint with now = 5. -/
theorem checkpoint_covers_timetable_witness :
    (runCallback w3cfg w3store).2.2 = none ∧ w3after.last_checked = 5 :=
  ⟨by rfl,
    (checkpoint_covers_timetable w3cfg w3store (by rfl)).1 w3after (by decide) (by decide)⟩

/-- Claim C10: the recipient list is snapshotted once, before the per-day
loop. On a run where nothing aborts, every subscriber of the initial
snapshot receives a send attempt for every selected day and its composed
message - including a recipient whose subscribed flag was cleared while
handling an earlier day - so a registry write affects recipient selection
only on the next run. -/
theorem subscriber_snapshot (cfg : RunConfig) (store : Store)
    (hnt : ∀ c m, cfg.send c m ≠ .transientError)
    (hcomp : ∀ d ∈ selectUpdatedDays store.lessons cfg.group cfg.week.week_id,
      (compose_message cfg.fx cfg.fA cfg.timetable cfg.week d).isSome)
    (d : Nat) (hd : d ∈ selectUpdatedDays store.lessons cfg.group cfg.week.week_id)
    (c : Int) (hc : c ∈ selectSubscribers store.chats cfg.group)
    (m : String) (hm : compose_message cfg.fx cfg.fA cfg.timetable cfg.week d = some m) :
    Event.send c m ∈ (runCallback cfg store).2.1 := by
  rcases hN : notifyDays cfg.send cfg.fx cfg.fA cfg.timetable cfg.week
      (selectSubscribers store.chats cfg.group)
      (selectUpdatedDays store.lessons cfg.group cfg.week.week_id) store.chats
    with ⟨chats1, tr, out⟩
  have hmem : Event.send c m ∈ tr := by
    have h0 := notifyDays_sends cfg.send cfg.fx cfg.fA cfg.timetable cfg.week
      (selectSubscribers store.chats cfg.group) hnt
      (selectUpdatedDays store.lessons cfg.group cfg.week.week_id) store.chats
      d c m hd hc hm hcomp
    rw [hN] at h0
    exact h0
  cases out with
  | none =>
    rw [runCallback_ok cfg store chats1 tr hN]
    exact List.mem_append_left _ hmem
  | some f =>
    rw [runCallback_fail cfg store chats1 tr f hN]
    exact hmem

def w10r0 : LessonRow := ⟨1, "G1", "W1", 0, 0, "", "A", 0, 1, 0, none⟩

def w10r1 : LessonRow := ⟨2, "G1", "W1", 1, 0, "", "B", 0, 1, 0, none⟩

def w10store : Store := ⟨[w10r0, w10r1], [⟨222, "G1", true⟩]⟩

def w10tt : Timetable := [[(0, ⟨1, "", "A"⟩)], [(0, ⟨2, "", "B"⟩)]]

def w10cfg : RunConfig := ⟨fun _ _ => SendResult.permanentError, wfx, wfA, 5, w10tt, "G1", wwk⟩

def w10msg : String := (compose_message wfx wfA w10tt wwk 1).getD ""

/-- Witness for claim C10: recipient 222 fails permanently on day 0 and is
unsubscribed there, yet the day-1 message is still attempted for it within
the same batch. -/
theorem subscriber_snapshot_witness :
    Event.send 222 w10msg ∈ (runCallback w10cfg w10store).2.1 ∧
    Event.unsub 222 ∈ (runCallback w10cfg w10store).2.1 :=
  ⟨subscriber_snapshot w10cfg w10store (fun c m h => SendResult.noConfusion h)
      (by decide) 1 (by decide) 222 (by decide) w10msg (by rfl),
    by decide⟩

/-- Claim C4: with a transport that never fails transiently and composable
messages for the selected days, the batch completes without surfacing any
failure, and every recipient of the snapshot whose delivery of some
selected day's message fails permanently has its subscribed flag cleared
in every matching registry row and is absent from a subsequent
active-subscriber selection, while all other recipients and days are still
attempted. -/
theorem permanent_failure_unsubscribes (cfg : RunConfig) (store : Store)
    (hnt : ∀ c m, cfg.send c m ≠ .transientError)
    (hcomp : ∀ d ∈ selectUpdatedDays store.lessons cfg.group cfg.week.week_id,
      (compose_message cfg.fx cfg.fA cfg.timetable cfg.week d).isSome) :
    (runCallback cfg store).2.2 = none ∧
    ∀ d c m, d ∈ selectUpdatedDays store.lessons cfg.group cfg.week.week_id →
      c ∈ selectSubscribers store.chats cfg.group →
      compose_message cfg.fx cfg.fA cfg.timetable cfg.week d = some m →
      cfg.send c m = .permanentError →
      (∀ row ∈ (runCallback cfg store).1.chats, row.id = c → row.subscribed = false) ∧
      c ∉ selectSubscribers (runCallback cfg store).1.chats cfg.group ∧
      (∀ d2 c2 m2, d2 ∈ selectUpdatedDays store.lessons cfg.group cfg.week.week_id →
        c2 ∈ selectSubscribers store.chats cfg.group →
        compose_message cfg.fx cfg.fA cfg.timetable cfg.week d2 = some m2 →
        Event.send c2 m2 ∈ (runCallback cfg store).2.1) := by
  rcases hN : notifyDays cfg.send cfg.fx cfg.fA cfg.timetable cfg.week
      (selectSubscribers store.chats cfg.group)
      (selectUpdatedDays store.lessons cfg.group cfg.week.week_id) store.chats
    with ⟨chats1, tr, out⟩
  have hout : out = none := by
    have h0 := notifyDays_not_fail cfg.send cfg.fx cfg.fA cfg.timetable cfg.week
      (selectSubscribers store.chats cfg.group) hnt
      (selectUpdatedDays store.lessons cfg.group cfg.week.week_id) store.chats hcomp
    rw [hN] at h0
    exact h0
  subst hout
  have hrc := runCallback_ok cfg store chats1 tr hN
  rw [hrc]
  refine ⟨rfl, ?_⟩
  intro d c m hd hc hm hperm
  have huns : unsubscribedIn chats1 c := by
    have h0 := notifyDays_unsubscribes cfg.send cfg.fx cfg.fA cfg.timetable cfg.week
      (selectSubscribers store.chats cfg.group) hnt
      (selectUpdatedDays store.lessons cfg.group cfg.week.week_id) store.chats
      d c m hd hc hm hperm hcomp
    rw [hN] at h0
    exact h0
  refine ⟨huns, ?_, ?_⟩
  · intro hmemc
    rw [mem_selectSubscribers] at hmemc
    rcases hmemc with ⟨row, hrow, _, hsub, hid⟩
    have hfalse := huns row hrow hid
    rw [hsub] at hfalse
    exact Bool.noConfusion hfalse
  · intro d2 c2 m2 hd2 hc2 hm2
    apply List.mem_append_left
    have h0 := notifyDays_sends cfg.send cfg.fx cfg.fA cfg.timetable cfg.week
      (selectSubscribers store.chats cfg.group) hnt
      (selectUpdatedDays store.lessons cfg.group cfg.week.week_id) store.chats
      d2 c2 m2 hd2 hc2 hm2 hcomp
    rw [hN] at h0
    exact h0

def w4store : Store := ⟨[w3row], [⟨111, "G1", true⟩, ⟨222, "G1", true⟩]⟩

def w4cfg : RunConfig :=
  ⟨fun c _ => if c = 222 then SendResult.permanentError else SendResult.ok,
    wfx, wfA, 5, w3tt, "G1", wwk⟩

def w4msg : String := (compose_message wfx wfA w3tt wwk 0).getD ""

/-- Witness for claim C4, realising the spec scenario: subscribers 111 and
222, delivery to 222 permanently unreachable; after the batch the active
subscribers of G1 are exactly 111. -/
theorem permanent_failure_unsubscribes_witness :
    (222 : Int) ∉ selectSubscribers (runCallback w4cfg w4store).1.chats "G1" ∧
    selectSubscribers (runCallback w4cfg w4store).1.chats "G1" = [111] :=
  ⟨((permanent_failure_unsubscribes w4cfg w4store
        (by intro c m h; revert h; by_cases hc : c = (222 : Int) <;> simp [w4cfg, hc])
        (by decide)).2
      0 222 w4msg (by decide) (by decide) (by rfl) (by rfl)).2.1,
    by decide⟩

/-- Claim C5 (amended): a transient transport failure is not swallowed -
it escapes the callback as the transport-failure outcome - but delivery
does NOT continue: the batch aborts at the failing attempt, which is the
last event of the trace (no further recipients or days are attempted), and
no checkpoint event ever occurs in such a run. -/
theorem transient_aborts_batch (cfg : RunConfig) (store : Store)
    (h : (runCallback cfg store).2.2 = some .transport) :
    (∀ e ∈ (runCallback cfg store).2.1, e.isCheckpoint = false) ∧
    ∃ pre c m, (runCallback cfg store).2.1 = pre ++ [Event.send c m] ∧
      cfg.send c m = .transientError := by
  rcases hN : notifyDays cfg.send cfg.fx cfg.fA cfg.timetable cfg.week
      (selectSubscribers store.chats cfg.group)
      (selectUpdatedDays store.lessons cfg.group cfg.week.week_id) store.chats
    with ⟨chats1, tr, out⟩
  cases out with
  | none =>
    rw [runCallback_ok cfg store chats1 tr hN] at h
    exact Option.noConfusion h
  | some f =>
    have hrc := runCallback_fail cfg store chats1 tr f hN
    rw [hrc] at h
    have hf : f = .transport := Option.some.inj h
    subst hf
    rw [hrc]
    constructor
    · intro e he
      exact notifyDays_no_checkpoint cfg.send cfg.fx cfg.fA cfg.timetable cfg.week
        (selectSubscribers store.chats cfg.group)
        (selectUpdatedDays store.lessons cfg.group cfg.week.week_id) store.chats e
        (by rw [hN]; exact he)
    · have h22 : (notifyDays cfg.send cfg.fx cfg.fA cfg.timetable cfg.week
          (selectSubscribers store.chats cfg.group)
          (selectUpdatedDays store.lessons cfg.group cfg.week.week_id) store.chats).2.2
          = some .transport := by rw [hN]
      rcases notifyDays_transport_form cfg.send cfg.fx cfg.fA cfg.timetable cfg.week
          (selectSubscribers store.chats cfg.group)
          (selectUpdatedDays store.lessons cfg.group cfg.week.week_id) store.chats h22
        with ⟨pre, c, m, htr, hc⟩
      rw [hN] at htr
      exact ⟨pre, c, m, htr, hc⟩

def c5cfg : RunConfig :=
  ⟨fun c _ => if c = 111 then SendResult.transientError else SendResult.ok,
    wfx, wfA, 5, w3tt, "G1", wwk⟩

/-- Claim C5 counterexample: recipient 111 fails transiently; the run
aborts at that very attempt, so recipient 222 of the same batch is never
attempted - the whole trace is that single send - contradicting the
claimed continuation of delivery to the remaining recipients. -/
theorem transient_not_continued_cex :
    (runCallback c5cfg w4store).2.2 = some .transport ∧
    (runCallback c5cfg w4store).2.1 = [Event.send 111 w4msg] ∧
    Event.send 222 w4msg ∉ (runCallback c5cfg w4store).2.1 := by
  refine ⟨rfl, rfl, ?_⟩
  decide

/-- Witness for the amended claim C5 at the concrete aborting run. -/
theorem transient_aborts_batch_witness :
    (Event.send 111 w4msg).isCheckpoint = false ∧
    c5cfg.send 111 w4msg = SendResult.transientError :=
  ⟨(transient_aborts_batch c5cfg w4store (by rfl)).1 (Event.send 111 w4msg) (by decide),
    by rfl⟩

/-- Claim C6 (amended): when the transport produces no permanent failures
and a transient failure escapes the run, the callback mutates nothing at
all: the subscriber registry is untouched and no lesson's checkpoint is
advanced - the batch aborts before the checkpoint update, even for lessons
whose notifications had already succeeded. -/
theorem transient_no_mutation (cfg : RunConfig) (store : Store)
    (hnp : ∀ c m, cfg.send c m ≠ .permanentError)
    (h : (runCallback cfg store).2.2 = some .transport) :
    (runCallback cfg store).1 = store := by
  rcases hN : notifyDays cfg.send cfg.fx cfg.fA cfg.timetable cfg.week
      (selectSubscribers store.chats cfg.group)
      (selectUpdatedDays store.lessons cfg.group cfg.week.week_id) store.chats
    with ⟨chats1, tr, out⟩
  cases out with
  | none =>
    rw [runCallback_ok cfg store chats1 tr hN] at h
    exact Option.noConfusion h
  | some f =>
    rw [runCallback_fail cfg store chats1 tr f hN]
    have hch : chats1 = store.chats := by
      have h0 := notifyDays_chats_eq_of_no_perm cfg.send cfg.fx cfg.fA cfg.timetable cfg.week
        (selectSubscribers store.chats cfg.group) hnp
        (selectUpdatedDays store.lessons cfg.group cfg.week.week_id) store.chats
      rw [hN] at h0
      exact h0
    rw [hch]

def c6store : Store := ⟨[w10r0, w10r1], [⟨111, "G1", true⟩]⟩

def c6cfg : RunConfig :=
  ⟨fun _ m => if m = w10msg then SendResult.transientError else SendResult.ok,
    wfx, wfA, 5, w10tt, "G1", wwk⟩

def c6msgA : String := (compose_message wfx wfA w10tt wwk 0).getD ""

/-- Claim C6 counterexample: day 0 is delivered successfully, then day 1
fails transiently; the run reports the transport failure but advances NO
checkpoint - the day-0 lesson (id 1), although successfully processed,
keeps last_checked = 0 instead of now = 5, contradicting the claimed
partial checkpoint advance. -/
theorem transient_checkpoint_skipped_cex :
    (runCallback c6cfg c6store).2.2 = some .transport ∧
    Event.send 111 c6msgA ∈ (runCallback c6cfg c6store).2.1 ∧
    (runCallback c6cfg c6store).1.lessons = c6store.lessons ∧
    w10r0.last_checked = 0 := by
  refine ⟨rfl, by decide, rfl, rfl⟩

/-- Witness for the amended claim C6 at the concrete aborting run: the
store is returned completely unchanged. -/
theorem transient_no_mutation_witness :
    (runCallback c6cfg c6store).1 = c6store :=
  transient_no_mutation c6cfg c6store
    (by
      intro c m h
      revert h
      by_cases hm : m = w10msg <;> simp [c6cfg, hm])
    (by rfl)

/-- Claim C8: the unsubscribe statement is idempotent - applying it twice
equals applying it once, and applying it to a registry in which every row
of that chat id is already unsubscribed is the identity (and, the
operation being a total function, it raises no error). -/
theorem unsubscribe_idempotent (chats : List ChatRow) (c : Int) :
    unsubscribe (unsubscribe chats c) c = unsubscribe chats c ∧
    ((∀ row ∈ chats, row.id = c → row.subscribed = false) → unsubscribe chats c = chats) := by
  constructor
  · unfold unsubscribe
    rw [List.map_map]
    apply List.map_congr_left
    intro row _
    by_cases h : row.id = c <;> simp [Function.comp, h]
  · intro h
    have h2 : ∀ row ∈ chats,
        (if row.id = c then { row with subscribed := false } else row) = id row := by
      intro row hrow
      by_cases hid : row.id = c
      · rcases row with ⟨rid, rg, rs⟩
        have hsub : rs = false := h ⟨rid, rg, rs⟩ hrow hid
        subst hsub
        rw [if_pos hid]
        rfl
      · rw [if_neg hid]
        rfl
    exact (List.map_congr_left h2).trans (List.map_id chats)

/-- Witness for claim C8 at a concrete already-unsubscribed registry. -/
theorem unsubscribe_idempotent_witness :
    unsubscribe [ChatRow.mk 222 "G1" false] 222 = [ChatRow.mk 222 "G1" false] :=
  (unsubscribe_idempotent [ChatRow.mk 222 "G1" false] 222).2 (by decide)

end IatTimetable
